import Mathlib

/-!
# Verification of the commodity-dashboard indicator logic

Shallow embedding of the numeric/control logic of the three Streamlit pages
(`pages/Metals.py`, `pages/Oil.py`, `pages/Candle Stick Viewer.py`).
Prices are embedded as exact rationals; Python/NumPy float special values
(NaN, ±inf) are modelled explicitly by the `PFloat` type where the code's
behaviour depends on them, and Python's `ZeroDivisionError` on `x / 0` is
modelled as an explicit error constructor where the code divides unguarded.
Dates are embedded as integers (days).
-/

namespace CommodityDashboard

/-! ## Daily percent-change metrics (division-by-zero behaviour)

Python semantics: `a / b` on floats raises `ZeroDivisionError` when `b == 0`;
`np.nan` is a quiet NaN.  The result of each page's percent-change expression
is therefore one of: a numeric value, NaN, or a raised `ZeroDivisionError`. -/

inductive ChangeResult where
  | val (q : ℚ)
  | nan
  | zeroDivisionError
  deriving DecidableEq, Repr

/-- Embeds `pages/Metals.py` line 185:
`change_pct = (last_price - prev_close) / prev_close * 100 if prev_close != 0 else np.nan`.
The division is guarded: a zero previous close yields NaN. -/
def metalsChangePct (last_price prev_close : ℚ) : ChangeResult :=
  if prev_close ≠ 0 then .val ((last_price - prev_close) / prev_close * 100) else .nan

/-- Embeds `pages/Oil.py` line 84 (and line 88 for WTI):
`brent_change = (brent_live - brent_prev) / brent_prev * 100` — unguarded;
Python raises `ZeroDivisionError` when the previous close is 0. -/
def oilChangePct (live prev : ℚ) : ChangeResult :=
  if prev = 0 then .zeroDivisionError else .val ((live - prev) / prev * 100)

/-- Embeds `pages/Candle Stick Viewer.py` line 134:
`change_pct = (last_price - prev_close) / prev_close * 100` — unguarded;
Python raises `ZeroDivisionError` when the previous close is 0. -/
def candleChangePct (last_price prev_close : ℚ) : ChangeResult :=
  if prev_close = 0 then .zeroDivisionError else .val ((last_price - prev_close) / prev_close * 100)

/-! ## Download-interval selection (Metals.py lines 104-110, Oil.py lines 53-59)

Both pages compute `delta_days = (end - start).days` and pick the interval by
the same if/elif/else chain. -/

/-- Embeds `pages/Metals.py` lines 104-110: interval from the range length in days. -/
def metalsInterval (delta_days : ℤ) : String :=
  if delta_days ≤ 7 then "1m"
  else if delta_days ≤ 60 then "15m"
  else "1d"

/-- Embeds `pages/Oil.py` lines 53-59: interval from the range length in days. -/
def oilInterval (delta_days : ℤ) : String :=
  if delta_days ≤ 7 then "1m"
  else if delta_days ≤ 60 then "15m"
  else "1d"

/-! ## EMA Overlay tab (`pages/Candle Stick Viewer.py` lines 202-204)

`data["Close"].ewm(span=s, adjust=False).mean()` is pandas' unadjusted
exponentially weighted mean: with `alpha = 2 / (span + 1)`,
`y_0 = x_0` and `y_t = alpha * x_t + (1 - alpha) * y_{t-1}`.
The tab computes exactly three columns: EMA20, EMA50, EMA200. -/

/-- The tail of pandas' `ewm(span, adjust=False).mean()` recursion: given the
previous output value, fold the recurrence over the remaining inputs. -/
def ewmRec (a prev : ℚ) : List ℚ → List ℚ
  | [] => []
  | x :: xs => (a * x + (1 - a) * prev) :: ewmRec a (a * x + (1 - a) * prev) xs

/-- Model of `Close.ewm(span=span, adjust=False).mean()`: first output equals the first
input, then the recurrence with `alpha = 2 / (span + 1)`. -/
def ewmMean (span : ℕ) (xs : List ℚ) : List ℚ :=
  match xs with
  | [] => []
  | x :: rest => x :: ewmRec (2 / (span + 1 : ℚ)) x rest

/-- Lines 202-204 assign `data["EMA20"]`, `data["EMA50"]`, `data["EMA200"]`:
the spans for which the EMA Overlay tab computes a column. -/
def emaOverlaySpans : List ℕ := [20, 50, 200]

/-- The (span, column) pairs computed by the EMA Overlay tab. -/
def emaOverlayColumns (closes : List ℚ) : List (ℕ × List ℚ) :=
  emaOverlaySpans.map (fun s => (s, ewmMean s closes))

/-! ## Bollinger Bands tab (`pages/Candle Stick Viewer.py` lines 260-263)

`window = 20`; `MA20 = Close.rolling(20).mean()`;
`BB_upper = MA20 + 2 * Close.rolling(20).std()`;
`BB_lower = MA20 - 2 * Close.rolling(20).std()`.
pandas `rolling(20)` uses `min_periods = 20`, so values exist only at
positions `i` with `19 ≤ i < length`; `.std()` is the sample standard
deviation (`ddof = 1`), the square root of `sum (x - mean)^2 / 19` over the
20-entry window ending at `i`.  We state all band facts at such positions. -/

/-- Entry `j` (for `j < 20`) of the 20-entry rolling window of `xs` ending at
position `i`, i.e. `xs[i - 19 + j]`. -/
def win20 (xs : List ℚ) (i j : ℕ) : ℚ := xs.getD (i - 19 + j) 0

/-- Model of `Close.rolling(20).mean()` at position `i`. -/
def mean20 (xs : List ℚ) (i : ℕ) : ℚ := (∑ j ∈ Finset.range 20, win20 xs i j) / 20

/-- The sample variance (`ddof = 1`) of the 20-entry window ending at `i`,
i.e. the square of `Close.rolling(20).std()`. -/
def var20 (xs : List ℚ) (i : ℕ) : ℚ :=
  (∑ j ∈ Finset.range 20, (win20 xs i j - mean20 xs i) ^ 2) / 19

/-- Model of `Close.rolling(20).std()` at position `i`: the square root of the sample
variance of the window. -/
noncomputable def std20 (xs : List ℚ) (i : ℕ) : ℝ := Real.sqrt ((var20 xs i : ℝ))

/-- Line 262: `BB_upper = MA20 + 2 * Close.rolling(20).std()`. -/
noncomputable def bbUpper (xs : List ℚ) (i : ℕ) : ℝ :=
  ((mean20 xs i : ℚ) : ℝ) + 2 * std20 xs i

/-- Line 263: `BB_lower = MA20 - 2 * Close.rolling(20).std()`. -/
noncomputable def bbLower (xs : List ℚ) (i : ℕ) : ℝ :=
  ((mean20 xs i : ℚ) : ℝ) - 2 * std20 xs i

/-- A price series on which the close escapes the ±2σ Bollinger band:
nineteen closes at 0 followed by one close at 1. -/
def spikeCloses : List ℚ := List.replicate 19 0 ++ [1]

/-! ## RSI tab (`pages/Candle Stick Viewer.py` lines 286-290)

`delta = data["Close"].diff()`;
`gain = (delta.where(delta > 0, 0)).rolling(14).mean()`;
`loss = (-delta.where(delta < 0, 0)).rolling(14).mean()`;
`rs = gain / loss`; `RSI = 100 - (100 / (1 + rs))`.
The float special values matter here: `diff()` puts NaN at row 0,
`where` maps it to 0 (NaN > 0 is False), `rolling(14).mean()` is NaN until 14
values are available (first valid at row 13), `0/0` is NaN and `x/0` for
`x > 0` is +inf, and `100 - 100/(1 + inf) = 100`.  `PFloat` models an
IEEE-754 double as an exact rational, +-infinity, or NaN. -/

inductive PFloat where
  | num (q : ℚ)
  | inf
  | ninf
  | nan
  deriving DecidableEq, Repr

/-- IEEE addition on the modelled values. -/
def pfAdd : PFloat → PFloat → PFloat
  | .num a, .num b => .num (a + b)
  | .num _, .inf => .inf
  | .inf, .num _ => .inf
  | .num _, .ninf => .ninf
  | .ninf, .num _ => .ninf
  | .inf, .inf => .inf
  | .ninf, .ninf => .ninf
  | _, _ => .nan

/-- IEEE subtraction on the modelled values. -/
def pfSub : PFloat → PFloat → PFloat
  | .num a, .num b => .num (a - b)
  | .num _, .inf => .ninf
  | .num _, .ninf => .inf
  | .inf, .num _ => .inf
  | .ninf, .num _ => .ninf
  | .inf, .ninf => .inf
  | .ninf, .inf => .ninf
  | _, _ => .nan

/-- NumPy division on the modelled values: `0/0` is NaN, `x/0` is ±inf by the
sign of `x`, `x/±inf` is 0, `±inf/±inf` is NaN. -/
def pfDiv : PFloat → PFloat → PFloat
  | .num a, .num b =>
      if b = 0 then (if 0 < a then .inf else if a < 0 then .ninf else .nan)
      else .num (a / b)
  | .num _, .inf => .num 0
  | .num _, .ninf => .num 0
  | .inf, .num b => if b < 0 then .ninf else .inf
  | .ninf, .num b => if b < 0 then .inf else .ninf
  | _, _ => .nan

/-- NumPy `x > 0` comparison: False for NaN, True for +inf. -/
def pfGtZero : PFloat → Bool
  | .num q => decide (0 < q)
  | .inf => true
  | _ => false

/-- NumPy `x < 0` comparison: False for NaN, True for -inf. -/
def pfLtZero : PFloat → Bool
  | .num q => decide (q < 0)
  | .ninf => true
  | _ => false

/-- IEEE negation. -/
def pfNeg : PFloat → PFloat
  | .num q => .num (-q)
  | .inf => .ninf
  | .ninf => .inf
  | .nan => .nan

/-- Model of `data["Close"].diff()` at row `i`: NaN at row 0, else the difference of
consecutive closes. -/
def deltaAt (closes : List ℚ) (i : ℕ) : PFloat :=
  if i = 0 then .nan else .num (closes.getD i 0 - closes.getD (i - 1) 0)

/-- Model of `delta.where(delta > 0, 0)` at row `i` (keep where the condition holds,
else 0; NaN fails the condition and becomes 0). -/
def gainRawAt (closes : List ℚ) (i : ℕ) : PFloat :=
  if pfGtZero (deltaAt closes i) then deltaAt closes i else .num 0

/-- Model of `-delta.where(delta < 0, 0)` at row `i`. -/
def lossRawAt (closes : List ℚ) (i : ℕ) : PFloat :=
  pfNeg (if pfLtZero (deltaAt closes i) then deltaAt closes i else .num 0)

/-- Collect a list of modelled floats into rationals; `none` as soon as any
entry is not finite. -/
def seqNums : List PFloat → Option (List ℚ)
  | [] => some []
  | .num q :: rest => (seqNums rest).map (fun l => q :: l)
  | _ => none

/-- pandas `rolling(14).mean()` at row `i` (default `min_periods` = window):
NaN before row 13 and NaN unless all 14 window entries are finite, else the
arithmetic mean of the window `i-13 .. i`. -/
def rolling14MeanAt (f : ℕ → PFloat) (i : ℕ) : PFloat :=
  if i < 13 then .nan
  else match seqNums ((List.range 14).map (fun j => f (i - 13 + j))) with
    | some qs => .num (qs.sum / 14)
    | none => .nan

/-- Line 289: `rs = gain / loss` at row `i`. -/
def rsAt (closes : List ℚ) (i : ℕ) : PFloat :=
  pfDiv (rolling14MeanAt (gainRawAt closes) i) (rolling14MeanAt (lossRawAt closes) i)

/-- Line 290: `data["RSI"] = 100 - (100 / (1 + rs))` at row `i`. -/
def rsiAt (closes : List ℚ) (i : ℕ) : PFloat :=
  pfSub (.num 100) (pfDiv (.num 100) (pfAdd (.num 1) (rsAt closes i)))

/-- The finite value of the gain stream at row `idx` for a monotone series:
0 at row 0 (the NaN diff is mapped to 0 by `where`), else the consecutive
difference. -/
def gval (closes : List ℚ) (idx : ℕ) : ℚ :=
  if idx = 0 then 0 else closes.getD idx 0 - closes.getD (idx - 1) 0

/-! ## Rolling Volatility & VaR tab (`pages/Candle Stick Viewer.py` lines 237-241)

`returns["Return"] = returns["Close"].pct_change()`, then on the
Date-indexed return series:
`roll_vol = ... .rolling(f"{vol_window}D").std() * np.sqrt(252)` and
`roll_var = ... .rolling(f"{vol_window}D").quantile((100 - var_level) / 100.0)`.
A pandas offset window `"wD"` at row `i` contains the rows `j ≤ i` whose
date lies in the half-open interval `(date_i - w, date_i]`; NaN entries
(the row-0 return) are excluded from the aggregation, `min_periods` is 1 for
offset windows, `.std()` uses `ddof = 1` (NaN, i.e. no value, on a window
with fewer than 2 observations), and `.quantile` uses linear interpolation.
Rows are embedded as (date in days, close) pairs. -/

/-- Model of `Close.pct_change()` at row `i`: NaN at row 0, else `c_i / c_{i-1} - 1`
with IEEE division semantics. -/
def returnAt (rows : List (ℤ × ℚ)) (i : ℕ) : PFloat :=
  if i = 0 then .nan
  else pfSub (pfDiv (.num (rows.getD i (0, 0)).2) (.num (rows.getD (i - 1) (0, 0)).2)) (.num 1)

/-- The finite return values inside the `wdays`-day window ending at row `i`:
rows `j ≤ i` with `date_i - wdays < date_j`, keeping only finite returns
(pandas excludes the NaN at row 0 from the aggregation). -/
def windowReturns (rows : List (ℤ × ℚ)) (wdays : ℤ) (i : ℕ) : List ℚ :=
  (List.range (i + 1)).filterMap (fun j =>
    if (rows.getD i (0, 0)).1 - wdays < (rows.getD j (0, 0)).1 then
      match returnAt rows j with
      | .num q => some q
      | _ => none
    else none)

/-- pandas quantile with `interpolation='linear'` on the (sorted) sample:
position `h = level * (m - 1)`, result `y_lo + (h - lo) * (y_(lo+1) - y_lo)`;
`none` models NaN on an empty sample. -/
def quantileLinear (level : ℚ) (ys : List ℚ) : Option ℚ :=
  if ys.isEmpty then none
  else
    let sorted := List.insertionSort (· ≤ ·) ys
    let h : ℚ := level * ((sorted.length : ℚ) - 1)
    let lo : ℕ := (Int.floor h).toNat
    let frac : ℚ := h - (lo : ℚ)
    some (sorted.getD lo 0 + frac * (sorted.getD (lo + 1) (sorted.getD lo 0) - sorted.getD lo 0))

/-- Line 241: `roll_var = Return.rolling(f"{vol_window}D").quantile((100 - var_level) / 100.0)`
at row `i`. -/
def rollVarAt (rows : List (ℤ × ℚ)) (wdays : ℤ) (var_level : ℤ) (i : ℕ) : Option ℚ :=
  quantileLinear ((100 - (var_level : ℚ)) / 100) (windowReturns rows wdays i)

/-- The sample variance (`ddof = 1`) of a list of values. -/
def sampleVar (ys : List ℚ) : ℚ :=
  ((ys.map (fun y => (y - ys.sum / (ys.length : ℚ)) ^ 2)).sum) / ((ys.length : ℚ) - 1)

/-- Line 240: `roll_vol = Return.rolling(f"{vol_window}D").std() * np.sqrt(252)`
at row `i`; `none` models NaN (fewer than two observations in the window).
The same expression is `vol` in `pages/Oil.py` line 143 and `pages/Metals.py`
line 273 (with the window fixed to 30 days there). -/
noncomputable def rollVolAt (rows : List (ℤ × ℚ)) (wdays : ℤ) (i : ℕ) : Option ℝ :=
  let ys := windowReturns rows wdays i
  if 2 ≤ ys.length then some (Real.sqrt ((sampleVar ys : ℚ) : ℝ) * Real.sqrt 252) else none

/-- Spec side, from the claim's words: the daily percent-change return at row
`j`, `(c_j - c_{j-1}) / c_{j-1}`, undefined at row 0. -/
def dailyReturn (rows : List (ℤ × ℚ)) (j : ℕ) : Option ℚ :=
  if j = 0 then none
  else some (((rows.getD j (0, 0)).2 - (rows.getD (j - 1) (0, 0)).2) / (rows.getD (j - 1) (0, 0)).2)

/-- Spec side: the daily percent-change returns whose dates lie within the
rolling window ending at row `i`. -/
def specWindowReturns (rows : List (ℤ × ℚ)) (wdays : ℤ) (i : ℕ) : List ℚ :=
  (List.range (i + 1)).filterMap (fun j =>
    if (rows.getD i (0, 0)).1 - wdays < (rows.getD j (0, 0)).1 then dailyReturn rows j
    else none)

/-- Spec side: the standard deviation of a return sample (`none` when fewer
than two observations). -/
noncomputable def stdevOfReturns (ys : List ℚ) : Option ℝ :=
  if 2 ≤ ys.length then some (Real.sqrt ((sampleVar ys : ℚ) : ℝ)) else none

/-! ## Page control flow: empty-data guards and display filtering

`pages/Candle Stick Viewer.py` lines 110-125: data is fetched from
`extended_start = start - 365 days`, subset to OHLCV, then
`display_data = data[(data["Date"] >= start) & (data["Date"] <= end)]`;
if `display_data.empty` an error is shown and nothing else is computed,
otherwise the metrics and the five tabs are rendered.  Each indicator tab
re-filters the (extended) frame by the same date predicate before display
(lines 206, 265, 292).  `pages/Metals.py` lines 123-125 stop with an error
when the download is empty. -/

/-- One OHLCV row of the candle page's frame. -/
structure Bar where
  date : ℤ
  bopen : ℚ
  high : ℚ
  low : ℚ
  close : ℚ
  volume : ℚ
  deriving DecidableEq, Repr, Inhabited

/-- The date predicate `(Date >= start) & (Date <= end)`. -/
def inRange (dstart dstop d : ℤ) : Bool := decide (dstart ≤ d) && decide (d ≤ dstop)

/-- Line 121 (and the same filter on lines 206/265/292): keep the rows whose
date lies in the user's chosen range. -/
def filterRange (dstart dstop : ℤ) (rows : List Bar) : List Bar :=
  rows.filter (fun r => inRange dstart dstop r.date)

/-- Line 110: `extended_start = start - datetime.timedelta(days=365)`. -/
def extendedStart (dstart : ℤ) : ℤ := dstart - 365

/-- Lines 202-204: the frame with the three EMA columns appended. -/
def emaTable (rows : List Bar) : List (Bar × ℚ × ℚ × ℚ) :=
  (List.range rows.length).map (fun i =>
    (rows.getD i default,
     (ewmMean 20 (rows.map Bar.close)).getD i 0,
     (ewmMean 50 (rows.map Bar.close)).getD i 0,
     (ewmMean 200 (rows.map Bar.close)).getD i 0))

/-- Line 206: `ema_display = data[(Date >= start) & (Date <= end)]`. -/
def emaDisplay (dstart dstop : ℤ) (rows : List Bar) : List (Bar × ℚ × ℚ × ℚ) :=
  (emaTable rows).filter (fun p => inRange dstart dstop p.1.date)

/-- Lines 261-263: the frame with MA20 / BB_upper / BB_lower appended
(`none` for the NaN rows before a full 20-row window). -/
noncomputable def bbTable (rows : List Bar) :
    List (Bar × Option ℝ × Option ℝ × Option ℝ) :=
  (List.range rows.length).map (fun i =>
    (rows.getD i default,
     if 19 ≤ i then some ((mean20 (rows.map Bar.close) i : ℚ) : ℝ) else none,
     if 19 ≤ i then some (bbUpper (rows.map Bar.close) i) else none,
     if 19 ≤ i then some (bbLower (rows.map Bar.close) i) else none))

/-- Line 265: `bb_display = data[(Date >= start) & (Date <= end)]`. -/
noncomputable def bbDisplay (dstart dstop : ℤ) (rows : List Bar) :
    List (Bar × Option ℝ × Option ℝ × Option ℝ) :=
  (bbTable rows).filter (fun p => inRange dstart dstop p.1.date)

/-- Lines 286-290: the frame with the RSI column appended. -/
def rsiTable (rows : List Bar) : List (Bar × PFloat) :=
  (List.range rows.length).map (fun i =>
    (rows.getD i default, rsiAt (rows.map Bar.close) i))

/-- Line 292: `rsi_display = data[(Date >= start) & (Date <= end)]`. -/
def rsiDisplay (dstart dstop : ℤ) (rows : List Bar) : List (Bar × PFloat) :=
  (rsiTable rows).filter (fun p => inRange dstart dstop p.1.date)

/-- What one render of the candle page produces: either the line-124 error
message, or the displayed frames of the four tabs that show data. -/
inductive CandleOutput where
  | errorMsg (msg : String)
  | rendered (displayData : List Bar) (ema : List (Bar × ℚ × ℚ × ℚ))
      (bb : List (Bar × Option ℝ × Option ℝ × Option ℝ)) (rsi : List (Bar × PFloat))

/-- Lines 121-305: filter the (extended-range) frame to the chosen range;
on an empty result show the error and compute nothing else, otherwise render
the metrics and indicator tabs from the data. -/
noncomputable def candlePage (dstart dstop : ℤ) (data : List Bar) : CandleOutput :=
  if (filterRange dstart dstop data).isEmpty then
    .errorMsg ("No data found for this date range.")
  else
    .rendered (filterRange dstart dstop data) (emaDisplay dstart dstop data)
      (bbDisplay dstart dstop data) (rsiDisplay dstart dstop data)

/-- What one render of the Metals page produces after the download: either
the line-124 error message (empty download, `st.stop()`), or the close data
together with the 30-day rolling volatility computed from it. -/
inductive MetalsOutput where
  | errorMsg (msg : String)
  | rendered (closeData : List (ℤ × ℚ)) (vol : List (Option ℝ))

/-- Embeds `pages/Metals.py` lines 123-125 and onwards: stop with an error on an
empty download, else proceed to the charts and analysis tabs. -/
noncomputable def metalsPage (raw : List (ℤ × ℚ)) : MetalsOutput :=
  if raw.isEmpty then
    .errorMsg ("No data returned for the selected tickers/date range.")
  else
    .rendered raw ((List.range raw.length).map (fun i => rollVolAt raw 30 i))

/-! ## Theorems -/

theorem ewmRec_length (a prev : ℚ) (xs : List ℚ) :
    (ewmRec a prev xs).length = xs.length := by
  induction xs generalizing prev with
  | nil => rfl
  | cons x rest ih => simp [ewmRec, ih]

theorem ewmRec_getD_succ (a : ℚ) (prev : ℚ) (xs : List ℚ) (t : ℕ)
    (ht : t + 1 < xs.length) :
    (ewmRec a prev xs).getD (t + 1) 0 =
      a * xs.getD (t + 1) 0 + (1 - a) * (ewmRec a prev xs).getD t 0 := by
  induction xs generalizing prev t with
  | nil => simp at ht
  | cons x rest ih =>
    match rest, t with
    | [], 0 => simp at ht
    | r :: rest2, 0 => simp [ewmRec]
    | r :: rest2, s + 1 =>
      have hs : s + 1 < (r :: rest2).length := by
        simpa [Nat.succ_lt_succ_iff] using ht
      simpa [ewmRec] using ih (a * x + (1 - a) * prev) s hs

/-- C1: the claim as stated is false — the Oil page's percent change is an
unguarded division: at previous close 0 it raises `ZeroDivisionError`,
it does not evaluate to NaN (and likewise the Candle Stick Viewer page). -/
theorem c1_counterexample :
    oilChangePct 80 0 = ChangeResult.zeroDivisionError ∧
    oilChangePct 80 0 ≠ ChangeResult.nan ∧
    candleChangePct 80 0 = ChangeResult.zeroDivisionError := by
  decide

/-- C1 (amended): only the Metals page guards the division by a possibly-zero
previous close (yielding NaN); the Oil and Candle Stick Viewer pages divide
unguarded and raise `ZeroDivisionError` on a zero previous close. -/
theorem c1_division_guards (last_price : ℚ) :
    metalsChangePct last_price 0 = ChangeResult.nan ∧
    oilChangePct last_price 0 = ChangeResult.zeroDivisionError ∧
    candleChangePct last_price 0 = ChangeResult.zeroDivisionError := by
  refine ⟨?_, ?_, ?_⟩ <;> simp [metalsChangePct, oilChangePct, candleChangePct]

/-- C9: the Metals and Oil pages select the download interval by the same
total function of the range length `d` in days: `"1m"` iff `d ≤ 7`,
`"15m"` iff `7 < d ≤ 60`, and `"1d"` otherwise. -/
theorem c9_interval_selection (d : ℤ) :
    metalsInterval d = oilInterval d ∧
    (metalsInterval d = "1m" ↔ d ≤ 7) ∧
    (metalsInterval d = "15m" ↔ (7 < d ∧ d ≤ 60)) ∧
    (metalsInterval d = "1d" ↔ (60 < d)) := by
  rcases le_or_lt d 7 with h7 | h7
  · refine ⟨rfl, ?_, ?_, ?_⟩ <;>
      simp [metalsInterval, if_pos h7, h7] <;> omega
  · rcases le_or_lt d 60 with h60 | h60
    · refine ⟨rfl, ?_, ?_, ?_⟩ <;>
        simp [metalsInterval, if_neg (not_le.mpr h7), if_pos h60] <;> omega
    · refine ⟨rfl, ?_, ?_, ?_⟩ <;>
        simp [metalsInterval, if_neg (not_le.mpr h7), if_neg (not_le.mpr h60)] <;> omega

/-- C4: the claim as stated is false — the EMA Overlay tab computes columns
only for spans 20, 50 and 200; there is no EMA column for span 100. -/
theorem c4_counterexample :
    (100 : ℕ) ∉ emaOverlaySpans ∧
    (emaOverlayColumns [1]).map Prod.fst = [20, 50, 200] := by
  constructor
  · decide
  · rfl

/-- C4 (amended): for each span in {20, 50, 200} (the spans actually computed
by the EMA Overlay tab), the EMA column satisfies the unadjusted recursive
definition: same length as the input, `EMA[0] = Close[0]`, and
`EMA[t] = alpha * Close[t] + (1 - alpha) * EMA[t-1]` with
`alpha = 2 / (span + 1)`. -/
theorem c4_ema_recurrence (span : ℕ) (hspan : span ∈ emaOverlaySpans)
    (xs : List ℚ) :
    (ewmMean span xs).length = xs.length ∧
    (0 < xs.length → (ewmMean span xs).getD 0 0 = xs.getD 0 0) ∧
    (∀ t, t + 1 < xs.length →
      (ewmMean span xs).getD (t + 1) 0 =
        (2 / (span + 1 : ℚ)) * xs.getD (t + 1) 0 +
          (1 - 2 / (span + 1 : ℚ)) * (ewmMean span xs).getD t 0) := by
  clear hspan
  match xs with
  | [] => refine ⟨rfl, by simp, ?_⟩; intro t ht; simp at ht
  | x :: rest =>
    refine ⟨by simp [ewmMean, ewmRec_length], by simp [ewmMean], ?_⟩
    intro t ht
    match rest, t with
    | [], 0 => simp at ht
    | r :: rest2, 0 => simp [ewmMean, ewmRec]
    | r :: rest2, s + 1 =>
      have hs : s + 1 < (r :: rest2).length := by
        simpa [Nat.succ_lt_succ_iff] using ht
      simpa [ewmMean] using ewmRec_getD_succ (2 / (span + 1 : ℚ)) x (r :: rest2) s hs

/-- C4 witness: the amended theorem applied at span 20 and the concrete close
series `[1, 2]`. -/
theorem c4_ema_recurrence_witness :
    (ewmMean 20 [1, 2]).getD 1 0 =
      (2 / 21) * 2 + (1 - 2 / 21) * (ewmMean 20 [1, 2]).getD 0 0 := by
  have h := (c4_ema_recurrence 20 (by decide) [1, 2]).2.2 0 (by decide)
  rw [h]
  norm_num

theorem spike_getD (j : ℕ) : spikeCloses.getD j 0 = if j = 19 then 1 else 0 := by
  rcases lt_or_ge j 20 with h | h
  · interval_cases j <;> decide
  · rw [List.getD_eq_default, if_neg (by omega)]
    simpa [spikeCloses] using h

theorem spike_win (j : ℕ) : win20 spikeCloses 19 j = if j = 19 then 1 else 0 := by
  have hidx : 19 - 19 + j = j := by omega
  rw [win20, hidx, spike_getD]

theorem spike_mean : mean20 spikeCloses 19 = 1 / 20 := by
  have h : (∑ j ∈ Finset.range 20, win20 spikeCloses 19 j) = 1 := by
    rw [Finset.sum_congr rfl (fun j _ => spike_win j)]
    rw [Finset.sum_ite_eq' (Finset.range 20) 19 (fun _ => (1 : ℚ))]
    norm_num
  rw [mean20, h]

theorem spike_var : var20 spikeCloses 19 = 1 / 20 := by
  have h : (∑ j ∈ Finset.range 20, (win20 spikeCloses 19 j - mean20 spikeCloses 19) ^ 2)
      = 19 / 20 := by
    have hterm : ∀ j ∈ Finset.range 20,
        (win20 spikeCloses 19 j - mean20 spikeCloses 19) ^ 2
          = 1 / 400 + if j = 19 then (361 : ℚ) / 400 - 1 / 400 else 0 := by
      intro j _
      rw [spike_win, spike_mean]
      split_ifs <;> norm_num
    rw [Finset.sum_congr rfl hterm, Finset.sum_add_distrib, Finset.sum_const,
      Finset.sum_ite_eq' (Finset.range 20) 19 (fun _ => (361 : ℚ) / 400 - 1 / 400)]
    norm_num
  rw [var20, h]
  norm_num

theorem spike_std_pos : 0 < std20 spikeCloses 19 := by
  rw [std20, spike_var]
  rw [Real.sqrt_pos]
  norm_num

theorem win20_dev_sum (xs : List ℚ) (i : ℕ) :
    (∑ j ∈ Finset.range 20, (win20 xs i j - mean20 xs i)) = 0 := by
  rw [Finset.sum_sub_distrib, Finset.sum_const, Finset.card_range, nsmul_eq_mul, mean20]
  field_simp

/-- When `19 ≤ i`, the last entry of the 20-entry window ending at `i` is the
close at `i` itself. -/
theorem win20_self (xs : List ℚ) (i : ℕ) (h : 19 ≤ i) :
    win20 xs i 19 = xs.getD i 0 := by
  rw [win20]
  congr 1
  omega

/-- Samuelson-type bound for the 20-entry rolling window: the squared
deviation of the window's last entry from the window mean is at most
`(19^2 / 20) = 361/20` times the sample variance (`ddof = 1`). -/
theorem samuelson20 (xs : List ℚ) (i : ℕ) :
    (win20 xs i 19 - mean20 xs i) ^ 2 ≤ (361 / 20) * var20 xs i := by
  set d : ℕ → ℚ := fun j => win20 xs i j - mean20 xs i with hd
  have hsum : ∑ j ∈ Finset.range 20, d j = 0 := win20_dev_sum xs i
  have hsplit : ∑ j ∈ Finset.range 20, d j = (∑ j ∈ Finset.range 19, d j) + d 19 :=
    Finset.sum_range_succ d 19
  have h19 : d 19 = -(∑ j ∈ Finset.range 19, d j) := by
    rw [hsplit] at hsum
    linarith
  have hcs : (∑ j ∈ Finset.range 19, d j) ^ 2 ≤ (19 : ℚ) * ∑ j ∈ Finset.range 19, d j ^ 2 := by
    have h := sq_sum_le_card_mul_sum_sq (s := Finset.range 19) (f := d)
    simpa using h
  have hS : ∑ j ∈ Finset.range 20, d j ^ 2 = (∑ j ∈ Finset.range 19, d j ^ 2) + d 19 ^ 2 :=
    Finset.sum_range_succ _ 19
  have hvar : var20 xs i = (∑ j ∈ Finset.range 20, d j ^ 2) / 19 := by
    rw [var20]
  have hA : d 19 ^ 2 = (∑ j ∈ Finset.range 19, d j) ^ 2 := by
    rw [h19]
    ring
  have hd19eq : d 19 = win20 xs i 19 - mean20 xs i := rfl
  have hfin : 20 * d 19 ^ 2 ≤ 19 * (∑ j ∈ Finset.range 20, d j ^ 2) := by
    nlinarith [hcs, hS, hA]
  clear_value d
  calc (win20 xs i 19 - mean20 xs i) ^ 2
      = d 19 ^ 2 := by rw [hd19eq]
    _ ≤ (361 / 20) * ((∑ j ∈ Finset.range 20, d j ^ 2) / 19) := by linarith
    _ = (361 / 20) * var20 xs i := by rw [hvar]

/-- C2: the claim as stated is false — on the spike series (nineteen 0-closes
then a 1-close) the volatility is strictly positive, yet the close at
position 19 lies strictly above the upper Bollinger band `MA20 + 2σ`. -/
theorem c2_counterexample :
    0 < std20 spikeCloses 19 ∧
    bbUpper spikeCloses 19 < ((spikeCloses.getD 19 0 : ℚ) : ℝ) := by
  refine ⟨spike_std_pos, ?_⟩
  have h1 : std20 spikeCloses 19 < 19 / 40 := by
    rw [std20, spike_var, Real.sqrt_lt' (by norm_num : (0 : ℝ) < 19 / 40)]
    push_cast
    norm_num
  have hgd : spikeCloses.getD 19 0 = 1 := by
    rw [spike_getD]
    norm_num
  rw [bbUpper, spike_mean, hgd]
  push_cast
  linarith

/-- C2 (amended): at every position with a full 20-observation window and
strictly positive rolling standard deviation, the close lies between
`MA20 - (19/√20)·σ` and `MA20 + (19/√20)·σ` (the sharp Samuelson bound for a
sample of 20 with `ddof = 1`); the claimed `±2σ` band can be escaped. -/
theorem c2_band_bracket (xs : List ℚ) (i : ℕ) (h19 : 19 ≤ i) (hlen : i < xs.length)
    (hstd : 0 < std20 xs i) :
    ((mean20 xs i : ℚ) : ℝ) - (19 / Real.sqrt 20) * std20 xs i ≤ ((xs.getD i 0 : ℚ) : ℝ) ∧
    ((xs.getD i 0 : ℚ) : ℝ) ≤ ((mean20 xs i : ℚ) : ℝ) + (19 / Real.sqrt 20) * std20 xs i := by
  clear hlen hstd
  have hq : ((xs.getD i 0 : ℚ) - mean20 xs i) ^ 2 ≤ (361 / 20) * var20 xs i := by
    rw [← win20_self xs i h19]
    exact samuelson20 xs i
  have hr : (((xs.getD i 0 : ℚ) : ℝ) - ((mean20 xs i : ℚ) : ℝ)) ^ 2
      ≤ ((361 : ℝ) / 20) * ((var20 xs i : ℚ) : ℝ) := by
    have h2 := (Rat.cast_le (K := ℝ)).mpr hq
    push_cast at h2
    exact h2
  have habs := Real.abs_le_sqrt hr
  have hfact : Real.sqrt (((361 : ℝ) / 20) * ((var20 xs i : ℚ) : ℝ))
      = (19 / Real.sqrt 20) * std20 xs i := by
    rw [Real.sqrt_mul (by norm_num : (0 : ℝ) ≤ 361 / 20), std20]
    congr 1
    rw [show (361 : ℝ) / 20 = 19 ^ 2 / 20 by norm_num,
      Real.sqrt_div (by norm_num : (0 : ℝ) ≤ 19 ^ 2) 20,
      Real.sqrt_sq (by norm_num : (0 : ℝ) ≤ 19)]
  rw [hfact] at habs
  have hb := abs_le.mp habs
  constructor
  · linarith [hb.1]
  · linarith [hb.2]

/-- C2 witness: the amended bound applied to the spike series at position 19
(where the rolling standard deviation is strictly positive). -/
theorem c2_band_bracket_witness :
    ((mean20 spikeCloses 19 : ℚ) : ℝ) - (19 / Real.sqrt 20) * std20 spikeCloses 19
      ≤ ((spikeCloses.getD 19 0 : ℚ) : ℝ) :=
  (c2_band_bracket spikeCloses 19 (by norm_num) (by decide) spike_std_pos).1

/-- C5: at every position with a full 20-observation window, the Bollinger
Bands tab computes the upper band as `MA20 + 2σ` and the lower band as
`MA20 - 2σ` (σ the 20-period rolling sample standard deviation), and the two
bands are symmetric about the moving average: `upper + lower = 2 * MA20`. -/
theorem c5_bollinger_symmetry (xs : List ℚ) (i : ℕ) (h19 : 19 ≤ i) (hlen : i < xs.length) :
    bbUpper xs i = ((mean20 xs i : ℚ) : ℝ) + 2 * std20 xs i ∧
    bbLower xs i = ((mean20 xs i : ℚ) : ℝ) - 2 * std20 xs i ∧
    bbUpper xs i + bbLower xs i = 2 * ((mean20 xs i : ℚ) : ℝ) := by
  refine ⟨rfl, rfl, ?_⟩
  rw [bbUpper, bbLower]
  ring

/-- C5 witness: band symmetry on the spike series at position 19. -/
theorem c5_bollinger_symmetry_witness :
    bbUpper spikeCloses 19 + bbLower spikeCloses 19
      = 2 * ((mean20 spikeCloses 19 : ℚ) : ℝ) :=
  (c5_bollinger_symmetry spikeCloses 19 (by norm_num) (by decide)).2.2

theorem pfAdd_nan_right (x : PFloat) : pfAdd x .nan = .nan := by cases x <;> rfl

theorem pfDiv_nan_left (y : PFloat) : pfDiv .nan y = .nan := by cases y <;> rfl

theorem pfDiv_nan_right (x : PFloat) : pfDiv x .nan = .nan := by cases x <;> rfl

theorem pfSub_nan_right (x : PFloat) : pfSub x .nan = .nan := by cases x <;> rfl

/-- If every window entry is the finite value `q j`, the rolling mean at a
full-window row is the mean of those values. -/
theorem rolling14MeanAt_nums (f : ℕ → PFloat) (q : ℕ → ℚ) (i : ℕ) (h13 : 13 ≤ i)
    (hf : ∀ j < 14, f (i - 13 + j) = .num (q j)) :
    rolling14MeanAt f i = .num (((List.range 14).map q).sum / 14) := by
  rw [rolling14MeanAt, if_neg (by omega)]
  have hmap : (List.range 14).map (fun j => f (i - 13 + j))
      = (List.range 14).map (fun j => PFloat.num (q j)) := by
    apply List.map_congr_left
    intro j hj
    exact hf j (List.mem_range.mp hj)
  rw [hmap]
  have hseq : ∀ l : List ℕ, seqNums (l.map (fun j => PFloat.num (q j))) = some (l.map q) := by
    intro l
    induction l with
    | nil => rfl
    | cons a l ih => simp [seqNums, ih]
  rw [hseq]

/-- A list of nonnegative rationals containing a positive element has a
positive sum. -/
theorem list_sum_pos_of_mem {l : List ℚ} (h0 : ∀ x ∈ l, 0 ≤ x) {y : ℚ}
    (hy : y ∈ l) (hypos : 0 < y) : 0 < l.sum := by
  induction l with
  | nil => simp at hy
  | cons a l ih =>
    rcases List.mem_cons.mp hy with rfl | hmem
    · have hl : 0 ≤ l.sum := List.sum_nonneg (fun x hx => h0 x (List.mem_cons_of_mem _ hx))
      simpa using add_pos_of_pos_of_nonneg hypos hl
    · have ha : 0 ≤ a := h0 a (List.mem_cons_self a l)
      have hl : 0 < l.sum := ih (fun x hx => h0 x (List.mem_cons_of_mem _ hx)) hmem
      simpa using add_pos_of_nonneg_of_pos ha hl

theorem gainRaw_of_const (closes : List ℚ)
    (hconst : ∀ j, j + 1 < closes.length → closes.getD (j + 1) 0 = closes.getD j 0)
    (idx : ℕ) (hidx : idx < closes.length) :
    gainRawAt closes idx = .num 0 := by
  match idx with
  | 0 => rfl
  | k + 1 =>
    have hd : deltaAt closes (k + 1) = .num 0 := by
      rw [deltaAt, if_neg (Nat.succ_ne_zero k)]
      simp only [Nat.add_sub_cancel]
      rw [hconst k hidx, sub_self]
    rw [gainRawAt, hd]
    simp [pfGtZero]

theorem lossRaw_of_const (closes : List ℚ)
    (hconst : ∀ j, j + 1 < closes.length → closes.getD (j + 1) 0 = closes.getD j 0)
    (idx : ℕ) (hidx : idx < closes.length) :
    lossRawAt closes idx = .num 0 := by
  match idx with
  | 0 => rfl
  | k + 1 =>
    have hd : deltaAt closes (k + 1) = .num 0 := by
      rw [deltaAt, if_neg (Nat.succ_ne_zero k)]
      simp only [Nat.add_sub_cancel]
      rw [hconst k hidx, sub_self]
    rw [lossRawAt, hd]
    simp [pfLtZero, pfNeg]

theorem gainRaw_of_inc (closes : List ℚ)
    (hinc : ∀ j, j + 1 < closes.length → closes.getD j 0 < closes.getD (j + 1) 0)
    (idx : ℕ) (hidx : idx < closes.length) :
    gainRawAt closes idx = .num (gval closes idx) := by
  match idx with
  | 0 => rfl
  | k + 1 =>
    have hlt := hinc k hidx
    have hd : deltaAt closes (k + 1)
        = .num (closes.getD (k + 1) 0 - closes.getD k 0) := by
      rw [deltaAt, if_neg (Nat.succ_ne_zero k)]
      simp only [Nat.add_sub_cancel]
    rw [gainRawAt, hd]
    have hpos : (0 : ℚ) < closes.getD (k + 1) 0 - closes.getD k 0 := by linarith
    simp only [pfGtZero, decide_eq_true_eq, if_pos hpos]
    rw [gval, if_neg (Nat.succ_ne_zero k)]
    simp only [Nat.add_sub_cancel]

theorem lossRaw_of_inc (closes : List ℚ)
    (hinc : ∀ j, j + 1 < closes.length → closes.getD j 0 < closes.getD (j + 1) 0)
    (idx : ℕ) (hidx : idx < closes.length) :
    lossRawAt closes idx = .num 0 := by
  match idx with
  | 0 => rfl
  | k + 1 =>
    have hlt := hinc k hidx
    have hd : deltaAt closes (k + 1)
        = .num (closes.getD (k + 1) 0 - closes.getD k 0) := by
      rw [deltaAt, if_neg (Nat.succ_ne_zero k)]
      simp only [Nat.add_sub_cancel]
    have hge : ¬ (closes.getD (k + 1) 0 - closes.getD k 0 < 0) := by linarith
    rw [lossRawAt, hd]
    simp only [pfLtZero, decide_eq_true_eq]
    rw [if_neg hge]
    simp [pfNeg]

theorem gval_nonneg (closes : List ℚ)
    (hinc : ∀ j, j + 1 < closes.length → closes.getD j 0 < closes.getD (j + 1) 0)
    (idx : ℕ) (hidx : idx < closes.length) : 0 ≤ gval closes idx := by
  match idx with
  | 0 => simp [gval]
  | k + 1 =>
    have hlt := hinc k hidx
    rw [gval, if_neg (Nat.succ_ne_zero k)]
    simp only [Nat.add_sub_cancel]
    linarith

theorem gval_pos (closes : List ℚ)
    (hinc : ∀ j, j + 1 < closes.length → closes.getD j 0 < closes.getD (j + 1) 0)
    (k : ℕ) (hidx : k + 1 < closes.length) : 0 < gval closes (k + 1) := by
  have hlt := hinc k hidx
  rw [gval, if_neg (Nat.succ_ne_zero k)]
  simp only [Nat.add_sub_cancel]
  linarith

theorem rolling14_zero_sum :
    ((List.range 14).map (fun _ => (0 : ℚ))).sum = 0 := by
  simp

/-- C3: for every price series of length at least 15, (a) if the series is
constant the computed RSI is NaN at every row (the code's 0/0 convention),
and (b) if the series is strictly increasing the computed RSI equals 100 at
every row with a full 14-period window (row 13 onwards). -/
theorem c3_rsi_extremes (closes : List ℚ) (h15 : 15 ≤ closes.length) :
    ((∀ j, j + 1 < closes.length → closes.getD (j + 1) 0 = closes.getD j 0) →
      ∀ i, i < closes.length → rsiAt closes i = PFloat.nan) ∧
    ((∀ j, j + 1 < closes.length → closes.getD j 0 < closes.getD (j + 1) 0) →
      ∀ i, 13 ≤ i → i < closes.length → rsiAt closes i = PFloat.num 100) := by
  clear h15
  constructor
  · intro hconst i hi
    rcases lt_or_ge i 13 with h13 | h13
    · have hg : rolling14MeanAt (gainRawAt closes) i = .nan := by
        rw [rolling14MeanAt, if_pos h13]
      rw [rsiAt, rsAt, hg, pfDiv_nan_left, pfAdd_nan_right, pfDiv_nan_right, pfSub_nan_right]
    · have hfg : ∀ j < 14, gainRawAt closes (i - 13 + j) = .num ((fun _ => (0:ℚ)) j) := by
        intro j hj
        exact gainRaw_of_const closes hconst _ (by omega)
      have hfl : ∀ j < 14, lossRawAt closes (i - 13 + j) = .num ((fun _ => (0:ℚ)) j) := by
        intro j hj
        exact lossRaw_of_const closes hconst _ (by omega)
      have hg := rolling14MeanAt_nums (gainRawAt closes) (fun _ => 0) i h13 hfg
      have hl := rolling14MeanAt_nums (lossRawAt closes) (fun _ => 0) i h13 hfl
      rw [rolling14_zero_sum] at hg hl
      norm_num at hg hl
      rw [rsiAt, rsAt, hg, hl]
      have hdiv : pfDiv (PFloat.num 0) (PFloat.num 0) = PFloat.nan := by
        simp [pfDiv]
      rw [hdiv, pfAdd_nan_right, pfDiv_nan_right, pfSub_nan_right]
  · intro hinc i h13 hi
    have hfg : ∀ j < 14, gainRawAt closes (i - 13 + j)
        = .num ((fun j => gval closes (i - 13 + j)) j) := by
      intro j hj
      exact gainRaw_of_inc closes hinc _ (by omega)
    have hfl : ∀ j < 14, lossRawAt closes (i - 13 + j) = .num ((fun _ => (0:ℚ)) j) := by
      intro j hj
      exact lossRaw_of_inc closes hinc _ (by omega)
    have hg := rolling14MeanAt_nums (gainRawAt closes)
      (fun j => gval closes (i - 13 + j)) i h13 hfg
    have hl := rolling14MeanAt_nums (lossRawAt closes) (fun _ => 0) i h13 hfl
    rw [rolling14_zero_sum] at hl
    norm_num at hl
    have hGpos : 0 < ((List.range 14).map (fun j => gval closes (i - 13 + j))).sum := by
      have hmem : gval closes i
          ∈ (List.range 14).map (fun j => gval closes (i - 13 + j)) := by
        refine List.mem_map.mpr ⟨13, List.mem_range.mpr (by norm_num), ?_⟩
        congr 1
        omega
      have h0 : ∀ x ∈ (List.range 14).map (fun j => gval closes (i - 13 + j)), 0 ≤ x := by
        intro x hx
        obtain ⟨j, hj, rfl⟩ := List.mem_map.mp hx
        exact gval_nonneg closes hinc _ (by simp at hj; omega)
      have hipos : 0 < gval closes i := by
        obtain ⟨k, hk⟩ : ∃ k, i = k + 1 := ⟨i - 1, by omega⟩
        rw [hk]
        exact gval_pos closes hinc k (by omega)
      exact list_sum_pos_of_mem h0 hmem hipos
    have hMpos : 0 < ((List.range 14).map (fun j => gval closes (i - 13 + j))).sum / 14 := by
      positivity
    rw [rsiAt, rsAt, hg, hl]
    have hdiv : pfDiv
        (PFloat.num (((List.range 14).map (fun j => gval closes (i - 13 + j))).sum / 14))
        (PFloat.num 0) = PFloat.inf := by
      simp [pfDiv, hMpos]
    rw [hdiv]
    have hadd : pfAdd (PFloat.num 1) PFloat.inf = PFloat.inf := rfl
    have hdiv2 : pfDiv (PFloat.num 100) PFloat.inf = PFloat.num 0 := rfl
    rw [hadd, hdiv2]
    show PFloat.num (100 - 0) = PFloat.num 100
    norm_num

/-- C3 witness: RSI on the constant series of fifteen 5s is NaN at row 14,
and RSI on the strictly increasing series 0..14 is 100 at row 13. -/
theorem c3_rsi_extremes_witness :
    rsiAt (List.replicate 15 (5 : ℚ)) 14 = PFloat.nan ∧
    rsiAt [0, 1, 2, 3, 4, 5, 6, 7, 8, 9, 10, 11, 12, 13, 14] 13 = PFloat.num 100 := by
  constructor
  · refine (c3_rsi_extremes (List.replicate 15 (5 : ℚ)) (by decide)).1 ?_ 14 (by decide)
    intro j hj
    simp only [List.length_replicate] at hj
    have hj14 : j < 14 := by omega
    interval_cases j <;> decide
  · refine (c3_rsi_extremes [0, 1, 2, 3, 4, 5, 6, 7, 8, 9, 10, 11, 12, 13, 14]
      (by decide)).2 ?_ 13 (by norm_num) (by decide)
    intro j hj
    simp only [List.length_cons, List.length_nil] at hj
    have hj14 : j < 14 := by omega
    interval_cases j <;> decide

/-- On positive closes the code's window of finite pct-change returns is
exactly the spec's window of daily percent-change returns. -/
theorem windowReturns_eq_spec (rows : List (ℤ × ℚ)) (wdays : ℤ) (i : ℕ)
    (hpos : ∀ p ∈ rows, 0 < p.2) (hi : i < rows.length) :
    windowReturns rows wdays i = specWindowReturns rows wdays i := by
  rw [windowReturns, specWindowReturns]
  apply List.filterMap_congr
  intro j hj
  have hji : j ≤ i := by
    have := List.mem_range.mp hj
    omega
  by_cases hcond : (rows.getD i (0, 0)).1 - wdays < (rows.getD j (0, 0)).1
  · rw [if_pos hcond, if_pos hcond]
    match j with
    | 0 => rfl
    | k + 1 =>
      have hk : k < rows.length := by omega
      have hmemk : rows.getD k (0, 0) ∈ rows := by
        rw [List.getD_eq_getElem _ _ hk]
        exact List.getElem_mem hk
      have hpk : 0 < (rows.getD k (0, 0)).2 := hpos _ hmemk
      have hne : (rows.getD k (0, 0)).2 ≠ 0 := ne_of_gt hpk
      rw [returnAt, if_neg (Nat.succ_ne_zero k), dailyReturn, if_neg (Nat.succ_ne_zero k)]
      simp only [Nat.add_sub_cancel]
      rw [pfDiv]
      rw [if_neg hne, pfSub]
      have harith : ∀ a b : ℚ, b ≠ 0 → a / b - 1 = (a - b) / b := by
        intro a b hb
        rw [sub_div, div_self hb]
      rw [harith _ _ hne]
  · rw [if_neg hcond, if_neg hcond]

/-- C6: for every (positive) close series, window length and integer VaR
confidence level `v` with `90 ≤ v ≤ 99`, the rolling VaR at each row equals
the `(100 - v)/100` quantile of the daily percent-change returns within the
window ending at that row. -/
theorem c6_rolling_var (rows : List (ℤ × ℚ)) (wdays : ℤ) (v : ℤ) (i : ℕ)
    (hv : 90 ≤ v ∧ v ≤ 99) (hpos : ∀ p ∈ rows, 0 < p.2) (hi : i < rows.length) :
    rollVarAt rows wdays v i
      = quantileLinear ((100 - (v : ℚ)) / 100) (specWindowReturns rows wdays i) := by
  clear hv
  rw [rollVarAt, windowReturns_eq_spec rows wdays i hpos hi]

/-- C6 witness: the equality at a concrete 4-row series, a 2-day window and
confidence level 95. -/
theorem c6_rolling_var_witness :
    rollVarAt [((0 : ℤ), (10 : ℚ)), (1, 11), (2, 12), (3, 9)] 2 95 3
      = quantileLinear ((100 - (95 : ℚ)) / 100)
          (specWindowReturns [((0 : ℤ), (10 : ℚ)), (1, 11), (2, 12), (3, 9)] 2 3) :=
  c6_rolling_var _ 2 95 3 ⟨by norm_num, by norm_num⟩ (by decide) (by decide)

/-- C7: for every (positive) close series and window length, the rolling
annualized volatility at each row equals the standard deviation of the daily
percent-change returns within that window multiplied by the square root
of 252. -/
theorem c7_rolling_vol (rows : List (ℤ × ℚ)) (wdays : ℤ) (i : ℕ)
    (hpos : ∀ p ∈ rows, 0 < p.2) (hi : i < rows.length) :
    rollVolAt rows wdays i
      = Option.map (fun s => s * Real.sqrt 252)
          (stdevOfReturns (specWindowReturns rows wdays i)) := by
  rw [rollVolAt, windowReturns_eq_spec rows wdays i hpos hi, stdevOfReturns]
  by_cases hlen : 2 ≤ (specWindowReturns rows wdays i).length
  · rw [if_pos hlen, if_pos hlen]
    rfl
  · rw [if_neg hlen, if_neg hlen]
    rfl

/-- C7 witness: the equality at a concrete 4-row series and a 2-day window. -/
theorem c7_rolling_vol_witness :
    rollVolAt [((0 : ℤ), (10 : ℚ)), (1, 11), (2, 12), (3, 9)] 2 3
      = Option.map (fun s => s * Real.sqrt 252)
          (stdevOfReturns (specWindowReturns [((0 : ℤ), (10 : ℚ)), (1, 11), (2, 12), (3, 9)] 2 3)) :=
  c7_rolling_vol _ 2 3 (by decide) (by decide)

/-- C8: on an empty result set each page shows its user-visible error message
and computes no indicators; the rendered (indicator-bearing) output exists
only when the data is non-empty. -/
theorem c8_empty_guard (dstart dstop : ℤ) (data : List Bar) (raw : List (ℤ × ℚ)) :
    (filterRange dstart dstop data = [] →
      candlePage dstart dstop data = .errorMsg ("No data found for this date range.")) ∧
    (∀ dd ema bb rsi, candlePage dstart dstop data = .rendered dd ema bb rsi →
      filterRange dstart dstop data ≠ []) ∧
    (raw = [] →
      metalsPage raw = .errorMsg ("No data returned for the selected tickers/date range.")) ∧
    (∀ cd vol, metalsPage raw = .rendered cd vol → raw ≠ []) := by
  refine ⟨?_, ?_, ?_, ?_⟩
  · intro hempty
    simp [candlePage, hempty]
  · intro dd ema bb rsi hrend hfil
    simp [candlePage, hfil] at hrend
  · intro hempty
    simp [metalsPage, hempty]
  · intro cd vol hrend hraw
    simp [metalsPage, hraw] at hrend

/-- C8 witness: the guards at concrete empty inputs. -/
theorem c8_empty_guard_witness :
    candlePage 0 10 [] = CandleOutput.errorMsg ("No data found for this date range.") ∧
    metalsPage [] = MetalsOutput.errorMsg ("No data returned for the selected tickers/date range.") :=
  ⟨(c8_empty_guard 0 10 [] []).1 rfl, (c8_empty_guard 0 10 [] []).2.2.1 rfl⟩

/-- C10: every row of every displayed frame of the candle page (the raw
display data and the EMA / Bollinger / RSI displays) has its date inside the
user's chosen `[start, end]` range, even though the underlying frame extends
365 days further back. -/
theorem c10_display_in_range (dstart dstop : ℤ) (data : List Bar) :
    (∀ r ∈ filterRange dstart dstop data, dstart ≤ r.date ∧ r.date ≤ dstop) ∧
    (∀ p ∈ emaDisplay dstart dstop data, dstart ≤ p.1.date ∧ p.1.date ≤ dstop) ∧
    (∀ p ∈ bbDisplay dstart dstop data, dstart ≤ p.1.date ∧ p.1.date ≤ dstop) ∧
    (∀ p ∈ rsiDisplay dstart dstop data, dstart ≤ p.1.date ∧ p.1.date ≤ dstop) := by
  refine ⟨?_, ?_, ?_, ?_⟩
  all_goals
    intro r hr
    have hcond := List.of_mem_filter hr
    simpa [inRange, decide_eq_true_eq] using hcond

/-- C10 witness: the filters on a one-row frame dated inside the range. -/
theorem c10_display_in_range_witness :
    (0 : ℤ) ≤ (Bar.mk 5 1 1 1 1 1).date ∧ (Bar.mk 5 1 1 1 1 1).date ≤ 10 :=
  (c10_display_in_range 0 10 [Bar.mk 5 1 1 1 1 1]).1 (Bar.mk 5 1 1 1 1 1) (by decide)

end CommodityDashboard
